/-
Verification of the lox concurrency toolkit against its specification.

Each component that a claim touches is shallowly embedded: the Python
classes become Lean structures, their methods become pure functions on
those structures (stateful methods take and return the state), and
exception-raising paths are modelled with Except.  Critical sections that
the source protects with a guard lock are modelled as atomic steps; where
an inner blocking acquire may time out, the outcome of that wait is an
explicit boolean parameter (an oracle for the scheduler).
-/

import Mathlib

/-! ## Dictionary helpers (Python dict modelled as an association list) -/

/-- Python `d.get(k)`: lookup returning an optional value. -/
def dictGet {β : Type} (d : List (Nat × β)) (k : Nat) : Option β :=
  match d with
  | [] => none
  | (k', v) :: rest => if k' = k then some v else dictGet rest k

/-- Python `d[k] = v`: replace the binding for `k`, or append a new one. -/
def dictSet {β : Type} (d : List (Nat × β)) (k : Nat) (v : β) : List (Nat × β) :=
  match d with
  | [] => [(k, v)]
  | (k', v') :: rest => if k' = k then (k, v) :: rest else (k', v') :: dictSet rest k v

/-- Python `del d[k]`: drop every binding for `k`. -/
def dictDel {β : Type} (d : List (Nat × β)) (k : Nat) : List (Nat × β) :=
  match d with
  | [] => []
  | (k', v') :: rest => if k' = k then dictDel rest k else (k', v') :: dictDel rest k

/-! ## Funnel (src/lox/queue/funnel.py) -/

/-- One slot of a job's array: `FunnelElement` holds user data and a
completion flag (`item`, `complete`). -/
structure FunnelElement (α : Type) where
  item : Option α
  complete : Bool
deriving DecidableEq, Repr

/-- `FunnelElement()` default construction: no item, incomplete. -/
def FunnelElement.empty {α : Type} : FunnelElement α :=
  { item := none, complete := false }

/-- `FunnelElement.set`: store the item and mark the slot complete. -/
def FunnelElement.setItem {α : Type} (_e : FunnelElement α) (x : α) : FunnelElement α :=
  { item := some x, complete := true }

/-- The state shared by a Funnel family: the subscriber count
(`len(self.subscribers)`), the job dict `d`, and the output queue `q`
(each completed job contributes one tuple, modelled as the job id paired
with the list of slot items). -/
structure FunnelState (α : Type) where
  nsubs : Nat
  d : List (Nat × List (FunnelElement α))
  q : List (Nat × List (Option α))
deriving DecidableEq, Repr

/-- The job's array as `Funnel.put` sees it after the padding loop: the
stored array for `jid` (empty if absent), extended with empty incomplete
elements up to the number of input queues. -/
def Funnel.preArr {α : Type} (s : FunnelState α) (jid : Nat) : List (FunnelElement α) :=
  let arr0 := (dictGet s.d jid).getD []
  arr0 ++ List.replicate (s.nsubs - arr0.length) FunnelElement.empty

/-- The job's array after `self.d[jid][self.index].set(item)`: the padded
array with the putter's slot overwritten by the completed element. -/
def Funnel.postArr {α : Type} (s : FunnelState α) (i : Nat) (item : α) (jid : Nat) :
    List (FunnelElement α) :=
  (Funnel.preArr s jid).set i
    (FunnelElement.setItem ((Funnel.preArr s jid).getD i FunnelElement.empty) item)

/-- `Funnel.put(item, jid)` called on a member whose slot index is
`index` (the root has `index = -1`), in the case where the guard lock was
obtained.  Mirrors funnel.py lines 171-196: raise `FunnelPutTopError` on
the root; pad the job's array to the subscriber count; set this member's
slot; if every slot is complete, push the tuple
`(jid, elem_0.item, ..., elem_{N-1}.item)` onto `q` and delete the dict
entry. -/
def Funnel.put {α : Type} (s : FunnelState α) (index : Int) (item : α) (jid : Nat) :
    Except Unit (FunnelState α) :=
  if index < 0 then
    .error ()
  else if (Funnel.postArr s index.toNat item jid).all (fun e => e.complete) then
    .ok { s with
            d := dictDel (dictSet s.d jid (Funnel.postArr s index.toNat item jid)) jid
            q := s.q ++ [(jid, (Funnel.postArr s index.toNat item jid).map (fun e => e.item))] }
  else
    .ok { s with d := dictSet s.d jid (Funnel.postArr s index.toNat item jid) }

example :
    Funnel.put (α := String) { nsubs := 2, d := [], q := [] } 0 "foo" 7 =
      .ok { nsubs := 2,
            d := [(7, [{ item := some "foo", complete := true }, FunnelElement.empty])],
            q := [] } := rfl

example :
    Funnel.put (α := String)
      { nsubs := 2,
        d := [(7, [{ item := some "foo", complete := true }, FunnelElement.empty])],
        q := [] } 1 "bar" 7 =
      .ok { nsubs := 2, d := [], q := [(7, [some "foo", some "bar"])] } := rfl

example :
    Funnel.put (α := String) { nsubs := 2, d := [], q := [] } (-1) "foo" 7 =
      .error () := rfl

theorem dictGet_dictSet {β : Type} (d : List (Nat × β)) (k : Nat) (v : β) :
    dictGet (dictSet d k v) k = some v := by
  induction d with
  | nil => simp [dictGet, dictSet]
  | cons hd tl ih =>
    obtain ⟨k', v'⟩ := hd
    by_cases h : k' = k <;> simp [dictGet, dictSet, h, ih]

theorem dictGet_dictDel {β : Type} (d : List (Nat × β)) (k : Nat) :
    dictGet (dictDel d k) k = none := by
  induction d with
  | nil => simp [dictDel, dictGet]
  | cons hd tl ih =>
    obtain ⟨k', v'⟩ := hd
    by_cases h : k' = k <;> simp [dictDel, dictGet, h, ih]

theorem Funnel.preArr_length {α : Type} (s : FunnelState α) (jid : Nat)
    (hlen : ∀ arr, dictGet s.d jid = some arr → arr.length ≤ s.nsubs) :
    (Funnel.preArr s jid).length = s.nsubs := by
  unfold Funnel.preArr
  cases h : dictGet s.d jid with
  | none => simp
  | some arr =>
    have := hlen arr h
    simp only [h, Option.getD_some, List.length_append, List.length_replicate]
    omega

theorem Funnel.preArr_not_complete {α : Type} (s : FunnelState α) (jid : Nat)
    (h0 : 0 < s.nsubs)
    (hnc : ∀ arr, dictGet s.d jid = some arr → ¬ arr.all (fun e => e.complete) = true) :
    ¬ (Funnel.preArr s jid).all (fun e => e.complete) = true := by
  unfold Funnel.preArr
  cases h : dictGet s.d jid with
  | none =>
    intro hall
    rw [List.all_eq_true] at hall
    have hmem : (FunnelElement.empty : FunnelElement α) ∈
        ((none : Option (List (FunnelElement α))).getD [] ++
          List.replicate (s.nsubs - ((none : Option (List (FunnelElement α))).getD []).length)
            FunnelElement.empty) := by
      simp [List.mem_replicate]
      omega
    have := hall _ hmem
    simp [FunnelElement.empty] at this
  | some arr =>
    intro hall
    rw [Option.getD_some, List.all_append] at hall
    exact hnc arr h (by
      have := Bool.and_eq_true_iff.mp hall
      exact this.1)

/-- Claim C1: a put by a subscribed member (slot index `i < nsubs`) stores
its item in that member's slot of the job's array, leaves every other slot
untouched, and — exactly when this put fills the last empty slot (the
array was not yet complete before, and is complete after) — appends a
single tuple `(jid, slot values in subscription order)` to the shared
output queue and removes the job's entry from the dict; otherwise the
queue is unchanged and the partially filled array stays in the dict, so
no tuple is emitted before the last slot is filled nor a second time
after the entry is removed. -/
theorem funnel_put_join {α : Type} (s : FunnelState α) (i : Nat) (item : α) (jid : Nat)
    (hi : i < s.nsubs)
    (hlen : ∀ arr, dictGet s.d jid = some arr → arr.length ≤ s.nsubs)
    (hnc : ∀ arr, dictGet s.d jid = some arr → ¬ arr.all (fun e => e.complete) = true) :
    ∃ s' : FunnelState α,
      Funnel.put s (i : Int) item jid = .ok s' ∧
      (Funnel.preArr s jid).length = s.nsubs ∧
      ¬ (Funnel.preArr s jid).all (fun e => e.complete) = true ∧
      (Funnel.postArr s i item jid)[i]? = some { item := some item, complete := true } ∧
      (∀ k, k ≠ i → (Funnel.postArr s i item jid)[k]? = (Funnel.preArr s jid)[k]?) ∧
      s'.nsubs = s.nsubs ∧
      (if (Funnel.postArr s i item jid).all (fun e => e.complete) then
         s'.q = s.q ++ [(jid, (Funnel.postArr s i item jid).map (fun e => e.item))] ∧
           dictGet s'.d jid = none
       else
         s'.q = s.q ∧ dictGet s'.d jid = some (Funnel.postArr s i item jid)) := by
  have hpre := Funnel.preArr_length s jid hlen
  have hnall := Funnel.preArr_not_complete s jid (Nat.lt_of_le_of_lt (Nat.zero_le i) hi) hnc
  have hni : ¬ ((i : Int) < 0) := by
    simp
  have hilen : i < (Funnel.preArr s jid).length := by
    rw [hpre]; exact hi
  have hslot : (Funnel.postArr s i item jid)[i]? =
      some { item := some item, complete := true } := by
    unfold Funnel.postArr
    rw [List.getElem?_set_self hilen]
    rfl
  have hother : ∀ k, k ≠ i →
      (Funnel.postArr s i item jid)[k]? = (Funnel.preArr s jid)[k]? := by
    intro k hk
    unfold Funnel.postArr
    exact List.getElem?_set_ne (Ne.symm hk)
  unfold Funnel.put
  rw [if_neg hni]
  have htn : ((i : Int)).toNat = i := Int.toNat_natCast i
  rw [htn]
  by_cases hall : (Funnel.postArr s i item jid).all (fun e => e.complete) = true
  · refine ⟨{ s with
        d := dictDel (dictSet s.d jid (Funnel.postArr s i item jid)) jid
        q := s.q ++ [(jid, (Funnel.postArr s i item jid).map (fun e => e.item))] },
      ?_, hpre, hnall, hslot, hother, rfl, ?_⟩
    · rw [if_pos hall]
    · rw [if_pos hall]
      exact ⟨rfl, dictGet_dictDel _ jid⟩
  · refine ⟨{ s with d := dictSet s.d jid (Funnel.postArr s i item jid) },
      ?_, hpre, hnall, hslot, hother, rfl, ?_⟩
    · rw [if_neg hall]
    · rw [if_neg hall]
      exact ⟨rfl, dictGet_dictSet s.d jid _⟩

/-- The concrete one-subscriber funnel family used as a witness input. -/
def funnelW : FunnelState String :=
  { nsubs := 1, d := [], q := [] }

/-- Witness for funnel_put_join: a family with one subscriber and an empty
dict; the single put fills the last empty slot, so the tuple is emitted
at once and the entry is gone. -/
theorem funnel_put_join_witness :
    ∃ s' : FunnelState String,
      Funnel.put funnelW ((0 : Nat) : Int) "foo" 7 = .ok s' ∧
      (Funnel.preArr funnelW 7).length = funnelW.nsubs ∧
      ¬ (Funnel.preArr funnelW 7).all (fun e => e.complete) = true ∧
      (Funnel.postArr funnelW 0 "foo" 7)[0]? =
        some { item := some "foo", complete := true } ∧
      (∀ k, k ≠ 0 →
        (Funnel.postArr funnelW 0 "foo" 7)[k]? = (Funnel.preArr funnelW 7)[k]?) ∧
      s'.nsubs = funnelW.nsubs ∧
      (if (Funnel.postArr funnelW 0 "foo" 7).all (fun e => e.complete) then
         s'.q = funnelW.q ++ [(7, (Funnel.postArr funnelW 0 "foo" 7).map (fun e => e.item))] ∧
           dictGet s'.d 7 = none
       else
         s'.q = funnelW.q ∧ dictGet s'.d 7 = some (Funnel.postArr funnelW 0 "foo" 7)) :=
  funnel_put_join funnelW 0 "foo" 7 (by decide)
    (fun arr h => Option.noConfusion h) (fun arr h => Option.noConfusion h)

/-! ## QLock (src/lox/lock/qlock.py) -/

/-- The FIFO lock's shared state: `count` (holders plus queued waiters)
and `queue`, the FIFO deque of per-waiter private locks.  Lock objects
are modelled by identity: each lock is a numeric id, and the id `0` is
reserved for the guard lock `self.lock` (a distinct object from every
freshly created private `Lock()`). -/
structure QLock where
  queue : List Nat
  count : Nat
deriving DecidableEq, Repr

/-- The id modelling the guard-lock object `self.lock`. -/
def QLock.selfLockId : Nat := 0

/-- `QLock.acquire` (qlock.py lines 76-99) in the case where `count > 0`
on entry (the caller queues behind the current holder) and the blocking
wait on its freshly created private lock (id `privId`) times out: the
private lock was appended to the queue; `acquired` is false; the code
runs `self.queue.remove(self.lock)` inside `try/except ValueError: pass`
(modelled by `List.erase`, which likewise leaves the list unchanged when
the element is absent) and returns `False` without touching `count`. -/
def QLock.acquireTimedOut (s : QLock) (privId : Nat) : Bool × QLock :=
  (false,
    { queue := (s.queue ++ [privId]).erase QLock.selfLockId
      count := s.count })

/-- `QLock.release` (qlock.py lines 103-117): raise when not acquired,
otherwise decrement the count and wake the earliest queued waiter. -/
def QLock.release (s : QLock) : Except Unit QLock :=
  if s.count = 0 then
    .error ()
  else
    .ok { queue := s.queue.tail, count := s.count - 1 }

/-- Claim C2 (code bug evidence): a QLock held once (`count = 1`, empty
wait queue); a second acquire queues its private lock (id 1) and times
out.  The failed call returns `false` and leaves `count` unchanged, but
the waiter's private lock is still in the wait queue afterwards: the
source removes `self.lock` (the guard lock, never an element of the
queue) instead of the private lock it appended, and silently swallows
the resulting `ValueError`. -/
theorem qlock_timeout_stale_private_lock :
    QLock.acquireTimedOut { queue := [], count := 1 } 1 =
      (false, { queue := [1], count := 1 }) ∧
    1 ∈ (QLock.acquireTimedOut { queue := [], count := 1 } 1).2.queue := by
  decide

/-! ## LightSwitch (src/lox/lock/light_switch.py) -/

/-- The Light Switch state: the internal `counter` (a Python int, so it
may go negative under over-release) and whether the guarded lock
`self.lock` is currently held by the Light Switch.  The private
`_counter_lock` is held only inside each operation, so operations are
atomic steps. -/
structure LightSwitch where
  counter : Int
  lockHeld : Bool
deriving DecidableEq, Repr

/-- `LightSwitch.acquire(timeout)` (light_switch.py lines 93-129).  The
two inner blocking acquires may time out; `counterLockOk` says whether
`self._counter_lock.acquire(timeout)` succeeded, and `lockOk` whether
`self._lock.acquire(timeout=t_remaining)` did (it is consulted only when
`counter == 0`).  Returns the boolean result and the new state. -/
def LightSwitch.acquire (s : LightSwitch) (counterLockOk lockOk : Bool) :
    Bool × LightSwitch :=
  if !counterLockOk then
    (false, s)
  else if s.counter = 0 then
    if lockOk then
      (true, { counter := s.counter + 1, lockHeld := true })
    else
      (false, s)
  else
    (true, { s with counter := s.counter + 1 })

/-- `LightSwitch.release()` (light_switch.py lines 131-141): decrement
the counter; when it reaches exactly zero, release the guarded lock. -/
def LightSwitch.release (s : LightSwitch) : LightSwitch :=
  { counter := s.counter - 1
    lockHeld := if s.counter - 1 = 0 then false else s.lockHeld }

example : LightSwitch.acquire { counter := 0, lockHeld := false } true true =
    (true, { counter := 1, lockHeld := true }) := rfl

example : LightSwitch.release { counter := 1, lockHeld := true } =
    { counter := 0, lockHeld := false } := rfl

/-- Claim C4: the invariant "the guarded lock is held by the Light Switch
iff the counter is positive" is preserved by every acquire and by every
release; an acquire that transitions the counter from 0 to 1 acquires the
guarded lock; a release that transitions it from 1 to 0 releases it; and
a failed acquire returns the state unchanged. -/
theorem lightswitch_lock_iff_counter_pos (s : LightSwitch) (counterLockOk lockOk : Bool)
    (hInv : s.lockHeld = true ↔ s.counter > 0) :
    (((LightSwitch.acquire s counterLockOk lockOk).2.lockHeld = true ↔
        (LightSwitch.acquire s counterLockOk lockOk).2.counter > 0) ∧
      ((LightSwitch.acquire s counterLockOk lockOk).1 = false →
        (LightSwitch.acquire s counterLockOk lockOk).2 = s) ∧
      (s.counter = 0 → (LightSwitch.acquire s counterLockOk lockOk).1 = true →
        (LightSwitch.acquire s counterLockOk lockOk).2.lockHeld = true ∧
          (LightSwitch.acquire s counterLockOk lockOk).2.counter = 1)) ∧
    (((LightSwitch.release s).lockHeld = true ↔ (LightSwitch.release s).counter > 0) ∧
      (s.counter = 1 →
        (LightSwitch.release s).lockHeld = false ∧ (LightSwitch.release s).counter = 0)) := by
  constructor
  · unfold LightSwitch.acquire
    by_cases hz : s.counter = 0 <;> cases counterLockOk <;> cases lockOk <;>
        simp [hz, hInv] <;> omega
  · unfold LightSwitch.release
    constructor
    · by_cases hz1 : s.counter - 1 = 0
      · simp [hz1]
        try omega
      · simp [if_neg hz1, hInv]
        try omega
    · intro h1
      have hz1 : s.counter - 1 = 0 := by omega
      simp [hz1, h1]

/-- Witness for lightswitch_lock_iff_counter_pos: a fresh Light Switch
(counter 0, guarded lock free), both inner acquires succeeding. -/
theorem lightswitch_lock_iff_counter_pos_witness :
    (((LightSwitch.acquire { counter := 0, lockHeld := false } true true).2.lockHeld = true ↔
        (LightSwitch.acquire { counter := 0, lockHeld := false } true true).2.counter > 0) ∧
      ((LightSwitch.acquire { counter := 0, lockHeld := false } true true).1 = false →
        (LightSwitch.acquire { counter := 0, lockHeld := false } true true).2 =
          { counter := 0, lockHeld := false }) ∧
      (({ counter := 0, lockHeld := false } : LightSwitch).counter = 0 →
        (LightSwitch.acquire { counter := 0, lockHeld := false } true true).1 = true →
        (LightSwitch.acquire { counter := 0, lockHeld := false } true true).2.lockHeld = true ∧
          (LightSwitch.acquire { counter := 0, lockHeld := false } true true).2.counter = 1)) ∧
    (((LightSwitch.release { counter := 0, lockHeld := false }).lockHeld = true ↔
        (LightSwitch.release { counter := 0, lockHeld := false }).counter > 0) ∧
      (({ counter := 0, lockHeld := false } : LightSwitch).counter = 1 →
        (LightSwitch.release { counter := 0, lockHeld := false }).lockHeld = false ∧
          (LightSwitch.release { counter := 0, lockHeld := false }).counter = 0)) :=
  lightswitch_lock_iff_counter_pos { counter := 0, lockHeld := false } true true
    (by decide)

/-! ## IndexSemaphore (src/lox/lock/index_semaphore.py) -/

/-- The Index Semaphore: a bounded FIFO queue (`queue.Queue(maxsize=val)`)
holding the currently free indices, plus the capacity `val` the queue was
constructed with. -/
structure IndexSemaphore where
  val : Nat
  queue : List Nat
deriving DecidableEq, Repr

/-- `IndexSemaphore(val)` construction (index_semaphore.py lines 28-42):
reject a non-positive capacity, otherwise pre-fill the free pool with
`0 .. val-1`. -/
def IndexSemaphore.init (val : Int) : Except Unit IndexSemaphore :=
  if val ≤ 0 then
    .error ()
  else
    .ok { val := val.toNat, queue := List.range val.toNat }

/-- `IndexSemaphore.acquire(timeout)` (lines 81-98): pop the head of the
free pool; on an empty pool the blocking get times out and `None` is
returned. -/
def IndexSemaphore.acquire (s : IndexSemaphore) : Option Nat × IndexSemaphore :=
  match s.queue with
  | [] => (none, s)
  | i :: rest => (some i, { s with queue := rest })

/-- `IndexSemaphore.release(index)` (lines 100-117): `put_nowait` raises
`Full` exactly when the bounded queue is at capacity (`maxsize > 0` and
`qsize >= maxsize`), which the method converts into the over-release
exception; otherwise the index is appended to the free pool. -/
def IndexSemaphore.release (s : IndexSemaphore) (index : Nat) : Except Unit IndexSemaphore :=
  if 0 < s.val ∧ s.val ≤ s.queue.length then
    .error ()
  else
    .ok { s with queue := s.queue ++ [index] }

/-- `IndexSemaphore.__call__(timeout)` used as a context manager
(lines 44-68) around a caller-supplied body: acquire (possibly timing
out to `None`), run the body on the yielded index, swallow and log any
exception the body raises, and in the `finally` block release the index
when one was acquired.  The outer `Except` carries an exception escaping
the context manager itself (only `release` can raise here). -/
def IndexSemaphore.call {ε : Type} (s : IndexSemaphore)
    (body : Option Nat → Except ε Unit) :
    Except Unit (Except ε Unit × IndexSemaphore) :=
  let res := IndexSemaphore.acquire s
  let handled : Except ε Unit :=
    match body res.1 with
    | .ok u => .ok u
    | .error _ => .ok ()
  match res.1 with
  | some i => (IndexSemaphore.release res.2 i).map (fun s2 => (handled, s2))
  | none => .ok (handled, res.2)

example : IndexSemaphore.init 2 = .ok { val := 2, queue := [0, 1] } := rfl

example : IndexSemaphore.release { val := 2, queue := [0, 1] } 0 = .error () := rfl

/-- Claim C7: for a semaphore of capacity `val` whose free pool never
exceeds capacity, `release(index)` raises the over-release exception
exactly when the free pool already holds `val` indices; when the pool is
not full it appends the index to the pool and does not raise. -/
theorem index_semaphore_release_over (s : IndexSemaphore) (index : Nat)
    (hval : 0 < s.val) (hlen : s.queue.length ≤ s.val) :
    (IndexSemaphore.release s index = .error () ↔ s.queue.length = s.val) ∧
    (s.queue.length < s.val →
      IndexSemaphore.release s index = .ok { s with queue := s.queue ++ [index] }) := by
  unfold IndexSemaphore.release
  constructor
  · constructor
    · intro herr
      by_cases hc : 0 < s.val ∧ s.val ≤ s.queue.length
      · omega
      · rw [if_neg hc] at herr
        exact Except.noConfusion herr
    · intro heq
      rw [if_pos ⟨hval, by omega⟩]
  · intro hlt
    rw [if_neg (by omega)]

/-- Witness for index_semaphore_release_over: capacity 2 with both
indices free — releasing yet another index over-releases. -/
theorem index_semaphore_release_over_witness :
    (IndexSemaphore.release { val := 2, queue := [0, 1] } 0 = .error () ↔
      ({ val := 2, queue := [0, 1] } : IndexSemaphore).queue.length = 2) ∧
    (({ val := 2, queue := [0, 1] } : IndexSemaphore).queue.length < 2 →
      IndexSemaphore.release { val := 2, queue := [0, 1] } 0 =
        .ok { val := 2, queue := [0, 1] ++ [0] }) :=
  index_semaphore_release_over { val := 2, queue := [0, 1] } 0 (by decide) (by decide)

/-- Claim C9: the scoped acquisition never propagates a body failure —
for any body (including one that raises), the with-block completes
normally, and the acquired index (when one was obtained) is returned to
the free pool on that same exit path. -/
theorem index_semaphore_call_swallows {ε : Type} (s : IndexSemaphore)
    (body : Option Nat → Except ε Unit)
    (hlen : s.queue.length ≤ s.val) :
    (s.queue = [] → IndexSemaphore.call s body = .ok (.ok (), s)) ∧
    (∀ i rest, s.queue = i :: rest →
      IndexSemaphore.call s body = .ok (.ok (), { s with queue := rest ++ [i] })) := by
  constructor
  · intro hq
    have hacq : IndexSemaphore.acquire s = (none, s) := by
      unfold IndexSemaphore.acquire
      rw [hq]
    simp only [IndexSemaphore.call, hacq]
    cases hb : body none with
    | ok u => simp [hb]
    | error e => simp [hb]
  · intro i rest hq
    have hacq : IndexSemaphore.acquire s = (some i, { s with queue := rest }) := by
      unfold IndexSemaphore.acquire
      rw [hq]
    have hrel : IndexSemaphore.release { s with queue := rest } i =
        .ok { s with queue := rest ++ [i] } := by
      unfold IndexSemaphore.release
      have hlen2 : s.queue.length = rest.length + 1 := by
        rw [hq]; simp
      rw [if_neg (by dsimp only; omega)]
    simp only [IndexSemaphore.call, hacq]
    cases hb : body (some i) with
    | ok u => simp [hb, hrel, Except.map]
    | error e => simp [hb, hrel, Except.map]

/-- Witness for index_semaphore_call_swallows: capacity 2, both indices
free, a body that raises; the block exits normally and index 0 is
recycled to the back of the pool. -/
theorem index_semaphore_call_swallows_witness :
    (([0, 1] : List Nat) = [] →
      IndexSemaphore.call { val := 2, queue := [0, 1] }
        (fun _ => (.error "boom" : Except String Unit)) =
        .ok (.ok (), { val := 2, queue := [0, 1] })) ∧
    (∀ i rest, ([0, 1] : List Nat) = i :: rest →
      IndexSemaphore.call { val := 2, queue := [0, 1] }
        (fun _ => (.error "boom" : Except String Unit)) =
        .ok (.ok (), { val := 2, queue := rest ++ [i] })) :=
  index_semaphore_call_swallows { val := 2, queue := [0, 1] }
    (fun _ => (.error "boom" : Except String Unit)) (by decide)

/-! ## RWLock (src/lox/lock/rw_lock.py) -/

/-- The access mode recognized by `_check_rw_flag`. -/
inductive RWOp where
  | rd
  | wr
deriving DecidableEq, Repr

/-- `RWLock._check_rw_flag` (rw_lock.py lines 62-72): lower-case the
flag (a Python string, embedded as its character list); accept exactly
the strings r and w, raising `ValueError` otherwise. -/
def RWLock.checkRwFlag (rw_flag : List Char) : Except Unit RWOp :=
  let f := rw_flag.map Char.toLower
  if f = ['r'] then
    .ok RWOp.rd
  else if f = ['w'] then
    .ok RWOp.wr
  else
    .error ()

/-- The reader/writer lock state: the three base locks (`true` = held by
someone) and the counters of the two Light Switches (`read_counter`
guarding `no_writers`, `_write_counter` guarding `no_readers`). -/
structure RWState where
  readers_queue : Bool
  no_readers : Bool
  no_writers : Bool
  readCount : Int
  writeCount : Int
deriving DecidableEq, Repr

/-- `read_counter.release()` — a LightSwitch release wrapping
`no_writers`. -/
def RWLock.readCounterRelease (s : RWState) : RWState :=
  { s with
      readCount := s.readCount - 1
      no_writers := if s.readCount - 1 = 0 then false else s.no_writers }

/-- `_write_counter.release()` — a LightSwitch release wrapping
`no_readers`. -/
def RWLock.writeCounterRelease (s : RWState) : RWState :=
  { s with
      writeCount := s.writeCount - 1
      no_readers := if s.writeCount - 1 = 0 then false else s.no_readers }

/-- The read branch of `RWLock.acquire` (rw_lock.py lines 93-106),
inlining the `read_counter` LightSwitch acquire; each inner blocking
acquire succeeds exactly when its base lock is currently free (a held
lock makes the bounded wait time out in this sequential model). -/
def RWLock.readAcquire (s : RWState) : Bool × RWState :=
  if s.readers_queue then
    (false, s)
  else if s.no_readers then
    (false, s)
  else if s.readCount = 0 then
    if s.no_writers then
      (false, s)
    else
      (true, { s with no_writers := true, readCount := s.readCount + 1 })
  else
    (true, { s with readCount := s.readCount + 1 })

/-- The write branch of `RWLock.acquire` (rw_lock.py lines 107-115),
inlining the `_write_counter` LightSwitch acquire; on failing to obtain
`no_writers` the LightSwitch increment is rolled back by
`_write_counter.release()`. -/
def RWLock.writeAcquire (s : RWState) : Bool × RWState :=
  if s.writeCount = 0 then
    if s.no_readers then
      (false, s)
    else if s.no_writers then
      (false,
        RWLock.writeCounterRelease
          { s with no_readers := true, writeCount := s.writeCount + 1 })
    else
      (true,
        { s with
            no_readers := true
            writeCount := s.writeCount + 1
            no_writers := true })
  else if s.no_writers then
    (false, RWLock.writeCounterRelease { s with writeCount := s.writeCount + 1 })
  else
    (true, { s with writeCount := s.writeCount + 1, no_writers := true })

/-- `RWLock.acquire(rw_flag, timeout)` (lines 74-115): validate the flag
(the `ValueError` from `_check_rw_flag` propagates), then run the read or
write acquisition sequence. -/
def RWLock.acquire (s : RWState) (rw_flag : List Char) : Except Unit (Bool × RWState) :=
  match RWLock.checkRwFlag rw_flag with
  | .error e => .error e
  | .ok RWOp.rd => .ok (RWLock.readAcquire s)
  | .ok RWOp.wr => .ok (RWLock.writeAcquire s)

/-- `RWLock.release(rw_flag)` (lines 117-131): validate the flag, then
release the reader LightSwitch, or release `no_writers` followed by the
writer LightSwitch. -/
def RWLock.release (s : RWState) (rw_flag : List Char) : Except Unit RWState :=
  match RWLock.checkRwFlag rw_flag with
  | .error e => .error e
  | .ok RWOp.rd => .ok (RWLock.readCounterRelease s)
  | .ok RWOp.wr => .ok (RWLock.writeCounterRelease { s with no_writers := false })

/-- The all-free reader/writer lock state. -/
def RWState.free : RWState :=
  { readers_queue := false, no_readers := false, no_writers := false
    readCount := 0, writeCount := 0 }

example : RWLock.acquire RWState.free "R".data =
    .ok (true, { RWState.free with no_writers := true, readCount := 1 }) := by
  rfl

example : RWLock.acquire RWState.free "w".data =
    .ok (true,
      { RWState.free with
          no_readers := true
          writeCount := 1
          no_writers := true }) := by
  rfl

example : RWLock.acquire RWState.free "read".data = .error () := by
  rfl

/-- Claim C8: acquire and release perform the read acquisition/release
sequence for any flag that denotes read (lower-cases to r), the write
sequence for any flag that denotes write (lower-cases to w), and raise
the invalid-argument error for every other flag; on an uncontended lock
the denoted acquisition also succeeds, incrementing the corresponding
Light Switch counter. -/
theorem rw_lock_flag_dispatch (rw_flag : List Char) (s : RWState) :
    (rw_flag.map Char.toLower = ['r'] →
      RWLock.acquire s rw_flag = .ok (RWLock.readAcquire s) ∧
      RWLock.release s rw_flag = .ok (RWLock.readCounterRelease s) ∧
      (s.readers_queue = false → s.no_readers = false → s.no_writers = false →
        s.readCount = 0 →
        (RWLock.readAcquire s).1 = true ∧ (RWLock.readAcquire s).2.readCount = 1 ∧
          (RWLock.readAcquire s).2.no_writers = true)) ∧
    (rw_flag.map Char.toLower = ['w'] →
      RWLock.acquire s rw_flag = .ok (RWLock.writeAcquire s) ∧
      RWLock.release s rw_flag =
        .ok (RWLock.writeCounterRelease { s with no_writers := false }) ∧
      (s.no_readers = false → s.no_writers = false → s.writeCount = 0 →
        (RWLock.writeAcquire s).1 = true ∧ (RWLock.writeAcquire s).2.writeCount = 1 ∧
          (RWLock.writeAcquire s).2.no_writers = true)) ∧
    (rw_flag.map Char.toLower ≠ ['r'] → rw_flag.map Char.toLower ≠ ['w'] →
      RWLock.acquire s rw_flag = .error () ∧ RWLock.release s rw_flag = .error ()) := by
  refine ⟨?_, ?_, ?_⟩
  · intro hr
    have hflag : RWLock.checkRwFlag rw_flag = .ok RWOp.rd := by
      unfold RWLock.checkRwFlag
      rw [hr]
      rfl
    refine ⟨by unfold RWLock.acquire; rw [hflag],
      by unfold RWLock.release; rw [hflag], ?_⟩
    intro h1 h2 h3 h4
    unfold RWLock.readAcquire
    rw [h1, h2, h3, h4]
    simp
  · intro hw
    have hflag : RWLock.checkRwFlag rw_flag = .ok RWOp.wr := by
      unfold RWLock.checkRwFlag
      rw [hw]
      rfl
    refine ⟨by unfold RWLock.acquire; rw [hflag],
      by unfold RWLock.release; rw [hflag], ?_⟩
    intro h1 h2 h3
    unfold RWLock.writeAcquire
    rw [h1, h2, h3]
    simp
  · intro hnr hnw
    have hflag : RWLock.checkRwFlag rw_flag = .error () := by
      unfold RWLock.checkRwFlag
      rw [if_neg hnr, if_neg hnw]
    exact ⟨by unfold RWLock.acquire; rw [hflag],
      by unfold RWLock.release; rw [hflag]⟩

/-- Witness for rw_lock_flag_dispatch: the flag R on the all-free lock
state dispatches to (and completes) the read acquisition, while an
out-of-domain flag raises the invalid-argument error. -/
theorem rw_lock_flag_dispatch_witness :
    RWLock.acquire RWState.free "R".data = .ok (RWLock.readAcquire RWState.free) ∧
    (RWLock.readAcquire RWState.free).1 = true ∧
    (RWLock.readAcquire RWState.free).2.readCount = 1 ∧
    RWLock.acquire RWState.free "x".data = .error () := by
  have h := rw_lock_flag_dispatch "R".data RWState.free
  have hx := rw_lock_flag_dispatch "x".data RWState.free
  have hr : ("R".data).map Char.toLower = ['r'] := by decide
  have hxr : ¬ ("x".data).map Char.toLower = ['r'] := by decide
  have hxw : ¬ ("x".data).map Char.toLower = ['w'] := by decide
  obtain ⟨hacq, hrel, hsucc⟩ := h.1 hr
  obtain ⟨h1, h2, h3⟩ := hsucc rfl rfl rfl rfl
  exact ⟨hacq, h1, h2, (hx.2.2 hxr hxw).1⟩

/-! ## Announcement (src/lox/queue/announcement.py) -/

/-- The exceptions an Announcement operation can raise:
`SubscribeFinalizedError`; the runtime error from touching a dropped
(`None`) backlog reference; and `queue.Empty` from a timed-out get. -/
inductive AnnError where
  | subscribeFinalized
  | noneBacklog
  | empty
deriving DecidableEq, Repr

/-- One Announcement family member: its private delivery queue `q` and
its own `_final` flag, `backlog_use` flag, and whether its `_backlog`
attribute still references the shared backlog deque (`hasBacklog`;
`false` models `backlog = None`). -/
structure AnnMember (α : Type) where
  q : List α
  final : Bool
  backlog_use : Bool
  hasBacklog : Bool
deriving DecidableEq, Repr

/-- An Announcement family: the member records (indexed by creation
order; object identity is the index), the shared `subscribers` deque of
member ids, the shared default `maxsize`, and the single shared backlog
deque (contents plus its `maxlen`). -/
structure AnnFamily (α : Type) where
  members : List (AnnMember α)
  subscribers : List Nat
  maxsize : Nat
  backlogStore : List α
  backlogMaxlen : Option Nat
deriving DecidableEq, Repr

/-- In-place update of the i-th element of a list (mutation of the
object the i-th reference points to). -/
def listModify {β : Type} (l : List β) (i : Nat) (g : β → β) : List β :=
  match l, i with
  | [], _ => []
  | x :: xs, 0 => g x :: xs
  | x :: xs, Nat.succ n => x :: listModify xs n g

/-- `collections.deque(maxlen=...).append`: append, evicting from the
left when a bounded deque exceeds its maxlen. -/
def dequeAppend {α : Type} (maxlen : Option Nat) (d : List α) (x : α) : List α :=
  match maxlen with
  | none => d ++ [x]
  | some m =>
    let d1 := d ++ [x]
    if m < d1.length then d1.drop (d1.length - m) else d1

/-- `Announcement(maxsize, backlog)` construction (announcement.py lines
93-131): the constructing node appends itself to the fresh subscriber
list; `backlog_use` is set iff a backlog argument was given; a
non-positive backlog size means an unbounded deque, a positive one a
circular buffer of that size. -/
def Announcement.init {α : Type} (maxsize : Nat) (backlog : Option Int) : AnnFamily α :=
  let use := backlog.isSome
  { members := [{ q := [], final := false, backlog_use := use, hasBacklog := use }]
    subscribers := [0]
    maxsize := maxsize
    backlogStore := []
    backlogMaxlen :=
      match backlog with
      | none => none
      | some b => if b ≤ 0 then none else some b.toNat }

/-- `Announcement.__len__`: the number of subscribers. -/
def AnnFamily.length {α : Type} (f : AnnFamily α) : Nat :=
  f.subscribers.length

/-- The delivery loop of `Announcement.put` (lines 247-255): walk the
shared subscriber list, skipping the putter (`ann == self`), and append
the item to every other subscriber's private queue. -/
def AnnFamily.deliver {α : Type} (subs : List Nat) (members : List (AnnMember α))
    (m : Nat) (item : α) : List (AnnMember α) :=
  subs.foldl
    (fun acc i =>
      if i = m then acc
      else listModify acc i (fun mem => { mem with q := mem.q ++ [item] }))
    members

/-- `Announcement.put(item)` by member `m` (lines 226-257): deliver to
every subscriber but the putter, then — if the putter's `backlog_use` is
set and it is not finalized — append the item to the shared backlog it
references (touching a dropped reference would be a runtime error, which
the `final` guard makes unreachable). -/
def AnnFamily.put {α : Type} (f : AnnFamily α) (m : Nat) (item : α) :
    Except AnnError (AnnFamily α) :=
  let members1 := AnnFamily.deliver f.subscribers f.members m item
  match f.members[m]? with
  | none => .error .noneBacklog
  | some putter =>
    if putter.backlog_use && !putter.final then
      if putter.hasBacklog then
        .ok { f with
                members := members1
                backlogStore := dequeAppend f.backlogMaxlen f.backlogStore item }
      else
        .error .noneBacklog
    else
      .ok { f with members := members1 }

/-- `Announcement.subscribe()` on member `m` (lines 283-324, fresh-queue
path): raise `SubscribeFinalizedError` when `m` is finalized; otherwise
clone a new member (fresh queue, `final = False` from `__init__`, the
parent's `backlog_use` and backlog reference), append it to the shared
subscriber list, and replay the backlog into its queue when
`backlog_use` is set. -/
def AnnFamily.subscribe {α : Type} (f : AnnFamily α) (m : Nat) :
    Except AnnError (AnnFamily α × Nat) :=
  match f.members[m]? with
  | none => .error .noneBacklog
  | some self =>
    if self.final then
      .error .subscribeFinalized
    else if self.backlog_use && !self.hasBacklog then
      .error .noneBacklog
    else
      let newId := f.members.length
      let newMem : AnnMember α :=
        { q := if self.backlog_use then f.backlogStore else []
          final := false
          backlog_use := self.backlog_use
          hasBacklog := self.hasBacklog }
      .ok ({ f with
               members := f.members ++ [newMem]
               subscribers := f.subscribers ++ [newId] }, newId)

/-- The loop body of `Announcement.finalize`: for every member id on the
shared subscriber list, set its `final` flag and drop its backlog
reference (`ann.backlog = None`). -/
def AnnFamily.markFinal {α : Type} (subs : List Nat) (members : List (AnnMember α)) :
    List (AnnMember α) :=
  subs.foldl
    (fun acc i => listModify acc i (fun mem => { mem with final := true, hasBacklog := false }))
    members

/-- `Announcement.finalize()` (lines 343-356): mark every member on the
shared subscriber list as final and drop its backlog reference. -/
def AnnFamily.finalize {α : Type} (f : AnnFamily α) : AnnFamily α :=
  { f with members := AnnFamily.markFinal f.subscribers f.members }

/-- `Announcement.get()` on member `m` (lines 259-281): pop the head of
the member's private queue; an empty queue raises `queue.Empty` after the
timeout. -/
def AnnFamily.get {α : Type} (f : AnnFamily α) (m : Nat) :
    Except AnnError (α × AnnFamily α) :=
  match f.members[m]? with
  | none => .error .noneBacklog
  | some mem =>
    match mem.q with
    | [] => .error .empty
    | x :: rest =>
      .ok (x, { f with members := listModify f.members m (fun me => { me with q := rest }) })

theorem listModify_length {β : Type} (l : List β) (i : Nat) (g : β → β) :
    (listModify l i g).length = l.length := by
  induction l generalizing i with
  | nil => simp [listModify]
  | cons x xs ih =>
    cases i with
    | zero => simp [listModify]
    | succ n => simp [listModify, ih]

theorem listModify_getElem?_ne {β : Type} (l : List β) (i j : Nat) (g : β → β)
    (h : i ≠ j) : (listModify l i g)[j]? = l[j]? := by
  induction l generalizing i j with
  | nil => simp [listModify]
  | cons x xs ih =>
    cases i with
    | zero =>
      cases j with
      | zero => exact absurd rfl h
      | succ jn => simp [listModify]
    | succ n =>
      cases j with
      | zero => simp [listModify]
      | succ jn =>
        simp only [listModify, List.getElem?_cons_succ]
        exact ih n jn (fun hc => h (by rw [hc]))

theorem listModify_getElem?_self {β : Type} (l : List β) (i : Nat) (g : β → β) :
    (listModify l i g)[i]? = (l[i]?).map g := by
  induction l generalizing i with
  | nil => simp [listModify]
  | cons x xs ih =>
    cases i with
    | zero => simp [listModify]
    | succ n => simp [listModify, ih]

theorem AnnFamily.deliver_cons {α : Type} (a : Nat) (rest : List Nat)
    (members : List (AnnMember α)) (m : Nat) (item : α) :
    AnnFamily.deliver (a :: rest) members m item =
      AnnFamily.deliver rest
        (if a = m then members
         else listModify members a (fun mem => { mem with q := mem.q ++ [item] }))
        m item := by
  unfold AnnFamily.deliver
  rw [List.foldl_cons]

theorem AnnFamily.deliver_length {α : Type} (subs : List Nat)
    (members : List (AnnMember α)) (m : Nat) (item : α) :
    (AnnFamily.deliver subs members m item).length = members.length := by
  induction subs generalizing members with
  | nil => rfl
  | cons a rest ih =>
    rw [AnnFamily.deliver_cons]
    by_cases ha : a = m
    · rw [if_pos ha]
      exact ih members
    · rw [if_neg ha, ih _, listModify_length]

theorem AnnFamily.deliver_getElem?_not_mem {α : Type} (subs : List Nat)
    (members : List (AnnMember α)) (m : Nat) (item : α) (i : Nat) (h : i ∉ subs) :
    (AnnFamily.deliver subs members m item)[i]? = members[i]? := by
  induction subs generalizing members with
  | nil => rfl
  | cons a rest ih =>
    have hia : i ≠ a := fun hc => h (by rw [hc]; exact List.mem_cons_self a rest)
    have hrest : i ∉ rest := fun hc => h (List.mem_cons_of_mem a hc)
    rw [AnnFamily.deliver_cons]
    by_cases ha : a = m
    · rw [if_pos ha]
      exact ih members hrest
    · rw [if_neg ha, ih _ hrest, listModify_getElem?_ne members a i _ (Ne.symm hia)]

theorem AnnFamily.deliver_getElem?_putter {α : Type} (subs : List Nat)
    (members : List (AnnMember α)) (m : Nat) (item : α) :
    (AnnFamily.deliver subs members m item)[m]? = members[m]? := by
  induction subs generalizing members with
  | nil => rfl
  | cons a rest ih =>
    rw [AnnFamily.deliver_cons]
    by_cases ha : a = m
    · rw [if_pos ha]
      exact ih members
    · rw [if_neg ha, ih _, listModify_getElem?_ne members a m _ ha]

theorem AnnFamily.deliver_getElem?_mem {α : Type} (subs : List Nat)
    (members : List (AnnMember α)) (m : Nat) (item : α) (i : Nat)
    (hmem : i ∈ subs) (hne : i ≠ m) (hnd : subs.Nodup) :
    (AnnFamily.deliver subs members m item)[i]? =
      (members[i]?).map (fun mem => { mem with q := mem.q ++ [item] }) := by
  induction subs generalizing members with
  | nil => exact absurd hmem (List.not_mem_nil i)
  | cons a rest ih =>
    have hnd2 := List.nodup_cons.mp hnd
    rw [AnnFamily.deliver_cons]
    by_cases hia : i = a
    · subst hia
      rw [if_neg (by exact hne)]
      rw [AnnFamily.deliver_getElem?_not_mem rest _ m item i hnd2.1]
      exact listModify_getElem?_self members i _
    · have hrest : i ∈ rest := by
        cases List.mem_cons.mp hmem with
        | inl h => exact absurd h hia
        | inr h => exact h
      by_cases ha : a = m
      · rw [if_pos ha]
        exact ih members hrest hnd2.2
      · rw [if_neg ha, ih _ hrest hnd2.2,
          listModify_getElem?_ne members a i _ (fun hc => hia (by rw [hc]))]

theorem AnnFamily.markFinal_cons {α : Type} (a : Nat) (rest : List Nat)
    (members : List (AnnMember α)) :
    AnnFamily.markFinal (a :: rest) members =
      AnnFamily.markFinal rest
        (listModify members a (fun mem => { mem with final := true, hasBacklog := false })) := by
  unfold AnnFamily.markFinal
  rw [List.foldl_cons]

theorem AnnFamily.markFinal_getElem?_not_mem {α : Type} (subs : List Nat)
    (members : List (AnnMember α)) (i : Nat) (h : i ∉ subs) :
    (AnnFamily.markFinal subs members)[i]? = members[i]? := by
  induction subs generalizing members with
  | nil => rfl
  | cons a rest ih =>
    have hia : i ≠ a := fun hc => h (by rw [hc]; exact List.mem_cons_self a rest)
    have hrest : i ∉ rest := fun hc => h (List.mem_cons_of_mem a hc)
    rw [AnnFamily.markFinal_cons, ih _ hrest,
      listModify_getElem?_ne members a i _ (Ne.symm hia)]

theorem AnnFamily.markFinal_getElem?_mem {α : Type} (subs : List Nat)
    (members : List (AnnMember α)) (i : Nat) (hmem : i ∈ subs) (hnd : subs.Nodup) :
    (AnnFamily.markFinal subs members)[i]? =
      (members[i]?).map (fun mem => { mem with final := true, hasBacklog := false }) := by
  induction subs generalizing members with
  | nil => exact absurd hmem (List.not_mem_nil i)
  | cons a rest ih =>
    have hnd2 := List.nodup_cons.mp hnd
    rw [AnnFamily.markFinal_cons]
    by_cases hia : i = a
    · subst hia
      rw [AnnFamily.markFinal_getElem?_not_mem rest _ i hnd2.1]
      exact listModify_getElem?_self members i _
    · have hrest : i ∈ rest := by
        cases List.mem_cons.mp hmem with
        | inl h => exact absurd h hia
        | inr h => exact h
      rw [ih _ hrest hnd2.2,
        listModify_getElem?_ne members a i _ (fun hc => hia (by rw [hc]))]

/-- Claim C5: a put by family member `m` delivers the item to the private
queue of every subscriber except `m` itself (never to its own queue, and
to no non-subscriber), and appends the item to the shared backlog — under
the construction-time bounded/unbounded eviction policy — exactly when
backlog is enabled and the family has not been finalized. -/
theorem announcement_put_multicast {α : Type} (f : AnnFamily α) (m : Nat) (item : α)
    (putter : AnnMember α)
    (hm : f.members[m]? = some putter)
    (hnd : f.subscribers.Nodup)
    (href : putter.backlog_use = true → putter.final = false → putter.hasBacklog = true) :
    ∃ f', AnnFamily.put f m item = .ok f' ∧
      (∀ i ∈ f.subscribers, i ≠ m →
        f'.members[i]? = (f.members[i]?).map (fun mem => { mem with q := mem.q ++ [item] })) ∧
      f'.members[m]? = f.members[m]? ∧
      (∀ i, i ∉ f.subscribers → f'.members[i]? = f.members[i]?) ∧
      (f'.backlogStore =
        if putter.backlog_use = true ∧ putter.final = false then
          dequeAppend f.backlogMaxlen f.backlogStore item
        else f.backlogStore) ∧
      f'.subscribers = f.subscribers := by
  cases hu : putter.backlog_use with
  | true =>
    cases hf : putter.final with
    | false =>
      have hb : putter.hasBacklog = true := href hu hf
      refine ⟨{ f with
          members := AnnFamily.deliver f.subscribers f.members m item
          backlogStore := dequeAppend f.backlogMaxlen f.backlogStore item },
        ?_, ?_, ?_, ?_, ?_, rfl⟩
      · simp [AnnFamily.put, hm, hu, hf, hb]
      · intro i hi hne
        exact AnnFamily.deliver_getElem?_mem f.subscribers f.members m item i hi hne hnd
      · exact AnnFamily.deliver_getElem?_putter f.subscribers f.members m item
      · intro i hi
        exact AnnFamily.deliver_getElem?_not_mem f.subscribers f.members m item i hi
      · rw [if_pos ⟨rfl, rfl⟩]
    | true =>
      refine ⟨{ f with members := AnnFamily.deliver f.subscribers f.members m item },
        ?_, ?_, ?_, ?_, ?_, rfl⟩
      · simp [AnnFamily.put, hm, hu, hf]
      · intro i hi hne
        exact AnnFamily.deliver_getElem?_mem f.subscribers f.members m item i hi hne hnd
      · exact AnnFamily.deliver_getElem?_putter f.subscribers f.members m item
      · intro i hi
        exact AnnFamily.deliver_getElem?_not_mem f.subscribers f.members m item i hi
      · rw [if_neg (by simp [hf])]
  | false =>
    refine ⟨{ f with members := AnnFamily.deliver f.subscribers f.members m item },
      ?_, ?_, ?_, ?_, ?_, rfl⟩
    · simp [AnnFamily.put, hm, hu]
    · intro i hi hne
      exact AnnFamily.deliver_getElem?_mem f.subscribers f.members m item i hi hne hnd
    · exact AnnFamily.deliver_getElem?_putter f.subscribers f.members m item
    · intro i hi
      exact AnnFamily.deliver_getElem?_not_mem f.subscribers f.members m item i hi
    · rw [if_neg (by simp [hu])]

/-- The concrete two-member backlog-enabled Announcement family used as a
witness input. -/
def annW : AnnFamily String :=
  { members :=
      [{ q := [], final := false, backlog_use := true, hasBacklog := true },
       { q := [], final := false, backlog_use := true, hasBacklog := true }]
    subscribers := [0, 1]
    maxsize := 0
    backlogStore := []
    backlogMaxlen := none }

/-- Witness for announcement_put_multicast: member 1 puts into the
two-member family; member 0 receives the item, member 1 does not, and the
backlog records it. -/
theorem announcement_put_multicast_witness :
    ∃ f', AnnFamily.put annW 1 "x" = .ok f' ∧
      (∀ i ∈ annW.subscribers, i ≠ 1 →
        f'.members[i]? =
          (annW.members[i]?).map (fun mem => { mem with q := mem.q ++ ["x"] })) ∧
      f'.members[1]? = annW.members[1]? ∧
      (∀ i, i ∉ annW.subscribers → f'.members[i]? = annW.members[i]?) ∧
      (f'.backlogStore =
        if ({ q := [], final := false, backlog_use := true, hasBacklog := true }
              : AnnMember String).backlog_use = true ∧
            ({ q := [], final := false, backlog_use := true, hasBacklog := true }
              : AnnMember String).final = false then
          dequeAppend annW.backlogMaxlen annW.backlogStore "x"
        else annW.backlogStore) ∧
      f'.subscribers = annW.subscribers :=
  announcement_put_multicast annW 1 "x"
    { q := [], final := false, backlog_use := true, hasBacklog := true }
    rfl (by decide) (fun _ _ => rfl)

/-- Claim C6: after `finalize()` every member on the shared subscriber
list is marked finalized with its backlog reference dropped (its queue is
untouched); every subsequent `subscribe` on any member raises
`SubscribeFinalizedError`; `put` on any member still succeeds but no
longer appends to the backlog; and `get` on a member with a pending item
still succeeds. -/
theorem announcement_finalize_all {α : Type} (f : AnnFamily α)
    (hnd : f.subscribers.Nodup)
    (hwf : ∀ i ∈ f.subscribers, i < f.members.length) :
    (∀ i ∈ f.subscribers,
      (AnnFamily.finalize f).members[i]? =
        (f.members[i]?).map (fun mem => { mem with final := true, hasBacklog := false })) ∧
    (∀ i ∈ f.subscribers,
      AnnFamily.subscribe (AnnFamily.finalize f) i = .error AnnError.subscribeFinalized) ∧
    (∀ i ∈ f.subscribers, ∀ item,
      ∃ f', AnnFamily.put (AnnFamily.finalize f) i item = .ok f' ∧
        f'.backlogStore = f.backlogStore) ∧
    (∀ i ∈ f.subscribers, ∀ mem x rest, f.members[i]? = some mem → mem.q = x :: rest →
      ∃ f', AnnFamily.get (AnnFamily.finalize f) i = .ok (x, f')) := by
  have hmark : ∀ i ∈ f.subscribers,
      (AnnFamily.finalize f).members[i]? =
        (f.members[i]?).map (fun mem => { mem with final := true, hasBacklog := false }) := by
    intro i hi
    exact AnnFamily.markFinal_getElem?_mem f.subscribers f.members i hi hnd
  have hsome : ∀ i ∈ f.subscribers, ∃ mem, f.members[i]? = some mem := by
    intro i hi
    have hlt := hwf i hi
    exact ⟨f.members[i], List.getElem?_eq_getElem hlt⟩
  refine ⟨hmark, ?_, ?_, ?_⟩
  · intro i hi
    obtain ⟨mem, hmem⟩ := hsome i hi
    have hput : (AnnFamily.finalize f).members[i]? =
        some { mem with final := true, hasBacklog := false } := by
      rw [hmark i hi, hmem]
      rfl
    simp [AnnFamily.subscribe, hput]
  · intro i hi item
    obtain ⟨mem, hmem⟩ := hsome i hi
    have hput : (AnnFamily.finalize f).members[i]? =
        some { mem with final := true, hasBacklog := false } := by
      rw [hmark i hi, hmem]
      rfl
    refine ⟨{ AnnFamily.finalize f with
        members := AnnFamily.deliver (AnnFamily.finalize f).subscribers
          (AnnFamily.finalize f).members i item }, ?_, rfl⟩
    simp [AnnFamily.put, hput]
  · intro i hi mem x rest hmem hq
    have hput : (AnnFamily.finalize f).members[i]? =
        some { mem with final := true, hasBacklog := false } := by
      rw [hmark i hi, hmem]
      rfl
    refine ⟨{ AnnFamily.finalize f with
        members := listModify (AnnFamily.finalize f).members i
          (fun me => { me with q := rest }) }, ?_⟩
    simp [AnnFamily.get, hput, hq]

/-- A two-member backlog-enabled family where member 0 has a pending
item, used as the finalize witness input. -/
def annW2 : AnnFamily String :=
  { members :=
      [{ q := ["a"], final := false, backlog_use := true, hasBacklog := true },
       { q := [], final := false, backlog_use := true, hasBacklog := true }]
    subscribers := [0, 1]
    maxsize := 0
    backlogStore := ["a"]
    backlogMaxlen := none }

/-- Witness for announcement_finalize_all on the two-member family with
a pending item. -/
theorem announcement_finalize_all_witness :
    (∀ i ∈ annW2.subscribers,
      (AnnFamily.finalize annW2).members[i]? =
        (annW2.members[i]?).map (fun mem => { mem with final := true, hasBacklog := false })) ∧
    (∀ i ∈ annW2.subscribers,
      AnnFamily.subscribe (AnnFamily.finalize annW2) i = .error AnnError.subscribeFinalized) ∧
    (∀ i ∈ annW2.subscribers, ∀ item,
      ∃ f', AnnFamily.put (AnnFamily.finalize annW2) i item = .ok f' ∧
        f'.backlogStore = annW2.backlogStore) ∧
    (∀ i ∈ annW2.subscribers, ∀ mem x rest, annW2.members[i]? = some mem →
      mem.q = x :: rest →
      ∃ f', AnnFamily.get (AnnFamily.finalize annW2) i = .ok (x, f')) :=
  announcement_finalize_all annW2 (by decide) (by decide)

/-- Claim C10: a freshly constructed Announcement already contains the
constructing node on the shared subscriber list, so its length is 1;
every successful subscribe grows the length by exactly 1; and the root
node's private queue receives every item put by any other family
member. -/
theorem announcement_root_is_member {α : Type} :
    (∀ (maxsize : Nat) (backlog : Option Int),
      (Announcement.init maxsize backlog : AnnFamily α).subscribers = [0] ∧
      AnnFamily.length (Announcement.init (α := α) maxsize backlog) = 1) ∧
    (∀ (f f' : AnnFamily α) (m nid : Nat),
      AnnFamily.subscribe f m = .ok (f', nid) →
      AnnFamily.length f' = AnnFamily.length f + 1) ∧
    (∀ (f f' : AnnFamily α) (m : Nat) (item : α),
      f.subscribers.Nodup → 0 ∈ f.subscribers → m ≠ 0 →
      AnnFamily.put f m item = .ok f' →
      f'.members[0]? = (f.members[0]?).map (fun mem => { mem with q := mem.q ++ [item] })) := by
  refine ⟨fun maxsize backlog => ⟨rfl, rfl⟩, ?_, ?_⟩
  · intro f f' m nid h
    unfold AnnFamily.subscribe at h
    split at h
    · exact Except.noConfusion h
    · split at h
      · exact Except.noConfusion h
      · split at h
        · exact Except.noConfusion h
        · injection h with h2
          injection h2 with ha hb
          rw [← ha]
          simp [AnnFamily.length]
  · intro f f' m item hnd h0 hm h
    have hmembers : f'.members = AnnFamily.deliver f.subscribers f.members m item := by
      unfold AnnFamily.put at h
      split at h
      · exact Except.noConfusion h
      · split at h
        · split at h
          · injection h with h2
            rw [← h2]
          · exact Except.noConfusion h
        · injection h with h2
          rw [← h2]
    rw [hmembers]
    exact AnnFamily.deliver_getElem?_mem f.subscribers f.members m item 0 h0
      (Ne.symm hm) hnd

/-- The witness root family: a fresh Announcement with no backlog. -/
def annRootW : AnnFamily String := Announcement.init 0 none

/-- The family after one subscribe on the root. -/
def annRootW1 : AnnFamily String :=
  { annRootW with
      members := annRootW.members ++
        [{ q := [], final := false, backlog_use := false, hasBacklog := false }]
      subscribers := [0, 1] }

/-- The family after member 1 puts x: the root queue received it. -/
def annRootW1put : AnnFamily String :=
  { annRootW1 with
      members :=
        [{ q := ["x"], final := false, backlog_use := false, hasBacklog := false },
         { q := [], final := false, backlog_use := false, hasBacklog := false }] }

/-- Witness for announcement_root_is_member: a fresh family, one
subscribe (length 1 to 2), then a put by the new member that lands in the
root's queue. -/
theorem announcement_root_is_member_witness :
    ((Announcement.init 0 none : AnnFamily String).subscribers = [0] ∧
      AnnFamily.length (Announcement.init (α := String) 0 none) = 1) ∧
    AnnFamily.length annRootW1 = AnnFamily.length annRootW + 1 ∧
    annRootW1put.members[0]? =
      (annRootW1.members[0]?).map (fun mem => { mem with q := mem.q ++ ["x"] }) := by
  have h := announcement_root_is_member (α := String)
  refine ⟨h.1 0 none, ?_, ?_⟩
  · exact h.2.1 annRootW annRootW1 0 1 rfl
  · exact h.2.2 annRootW1 annRootW1put 1 "x" (by decide) (by decide) (by decide) rfl

/-! ## Thread worker pool (scatter/gather contract) -/

/-- Modelled from the spec: the final thread worker pool implementation
(the released `lox.worker.thread`) is missing from the source tree — the
tree holds only its tests, the package facade importing it, and a
superseded promise-chaining snapshot that the spec's design notes call
historical dead code.  Per the spec, each decorated function owns a
guarded list of pending result handles; a handle is created at scatter
time and resolved in place with the job's outcome — its return value or
the exception it raised (the captured outcome of executing the wrapped
function is an `Except`). -/
structure SpecThreadPool (ε α : Type) where
  pending : List (Except ε α)

/-- Modelled from the spec: `scatter` submits one invocation; the job's
outcome (including a raised exception) is captured on the returned
handle, which is appended to the pending list — scatter itself never
raises the job's failure. -/
def SpecThreadPool.scatter {ε α : Type} (p : SpecThreadPool ε α) (job : Except ε α) :
    SpecThreadPool ε α × Except ε α :=
  ({ pending := p.pending ++ [job] }, job)

/-- Scatter a batch of jobs in order. -/
def SpecThreadPool.scatterAll {ε α : Type} (p : SpecThreadPool ε α)
    (jobs : List (Except ε α)) : SpecThreadPool ε α :=
  jobs.foldl (fun acc job => (SpecThreadPool.scatter acc job).1) p

/-- Modelled from the spec: resolving the pending handles in scatter
order — each handle yields its value, or re-raises the failure captured
on it the moment that handle's result is requested. -/
def SpecThreadPool.collect {ε α : Type} : List (Except ε α) → Except ε (List α)
  | [] => .ok []
  | .ok a :: rest => (SpecThreadPool.collect rest).map (fun l => a :: l)
  | .error e :: _ => .error e

/-- Modelled from the spec: `gather` swaps out the entire pending list
for a fresh empty one and blocks on each handle's result in original
scatter order, raising whatever failure the corresponding job raised. -/
def SpecThreadPool.gather {ε α : Type} (p : SpecThreadPool ε α) :
    Except ε (List α) × SpecThreadPool ε α :=
  (SpecThreadPool.collect p.pending, { pending := [] })

theorem SpecThreadPool.scatterAll_pending {ε α : Type} (p : SpecThreadPool ε α)
    (jobs : List (Except ε α)) :
    (SpecThreadPool.scatterAll p jobs).pending = p.pending ++ jobs := by
  induction jobs generalizing p with
  | nil => simp [SpecThreadPool.scatterAll]
  | cons j rest ih =>
    unfold SpecThreadPool.scatterAll
    rw [List.foldl_cons]
    have h2 := ih { pending := p.pending ++ [j] }
    unfold SpecThreadPool.scatterAll at h2
    simp only [SpecThreadPool.scatter] at h2 ⊢
    rw [h2]
    simp

theorem SpecThreadPool.collect_error_first {ε α : Type} (jobs : List (Except ε α))
    (i : Nat) (e : ε)
    (hi : jobs[i]? = some (.error e))
    (hbefore : ∀ k, k < i → ∃ a, jobs[k]? = some (.ok a)) :
    SpecThreadPool.collect jobs = .error e := by
  induction jobs generalizing i with
  | nil => simp at hi
  | cons j rest ih =>
    cases i with
    | zero =>
      simp at hi
      rw [hi]
      rfl
    | succ n =>
      obtain ⟨a, ha⟩ := hbefore 0 (Nat.succ_pos n)
      simp at ha
      rw [ha]
      simp only [SpecThreadPool.collect]
      rw [ih n (by simpa using hi)
        (fun k hk => by
          obtain ⟨b, hb⟩ := hbefore (k + 1) (Nat.succ_lt_succ hk)
          exact ⟨b, by simpa using hb⟩)]
      rfl

/-- Claim C3: when the wrapped function of scattered job `i` raises `e`
(and the jobs resolved before it succeeded), the failure is captured on
job `i`'s handle — every handle, including the siblings', still carries
exactly its own job's outcome — and it is re-raised to the `gather`
caller at the moment handle `i`'s result is collected; the pool's pending
list is swapped out clean, so subsequent scatter/gather cycles are
unaffected by the failure. -/
theorem thread_pool_failure_isolated {ε α : Type} (jobs : List (Except ε α))
    (i : Nat) (e : ε)
    (hi : jobs[i]? = some (.error e))
    (hbefore : ∀ k, k < i → ∃ a, jobs[k]? = some (.ok a)) :
    (∀ j : Nat, (SpecThreadPool.scatterAll { pending := [] } jobs).pending[j]? = jobs[j]?) ∧
    (SpecThreadPool.gather (SpecThreadPool.scatterAll { pending := [] } jobs)).1 =
      .error e ∧
    (SpecThreadPool.gather (SpecThreadPool.scatterAll { pending := [] } jobs)).2 =
      { pending := [] } ∧
    (∀ laterJobs : List (Except ε α),
      (SpecThreadPool.gather (SpecThreadPool.scatterAll
        (SpecThreadPool.gather (SpecThreadPool.scatterAll { pending := [] } jobs)).2
        laterJobs)).1 = SpecThreadPool.collect laterJobs) := by
  have hpend : (SpecThreadPool.scatterAll
      ({ pending := [] } : SpecThreadPool ε α) jobs).pending = jobs := by
    rw [SpecThreadPool.scatterAll_pending]
    rfl
  refine ⟨?_, ?_, ?_, ?_⟩
  · intro j
    rw [hpend]
  · unfold SpecThreadPool.gather
    rw [hpend]
    exact SpecThreadPool.collect_error_first jobs i e hi hbefore
  · rfl
  · intro laterJobs
    unfold SpecThreadPool.gather
    rw [SpecThreadPool.scatterAll_pending]
    rfl

/-- Witness for thread_pool_failure_isolated: three jobs whose middle
one raises; gather re-raises that failure, the sibling handles hold
their own results, and the next cycle is clean. -/
theorem thread_pool_failure_isolated_witness :
    (∀ j : Nat, (SpecThreadPool.scatterAll { pending := [] }
        [.ok 1, .error "boom", .ok 2]).pending[j]? =
      ([.ok 1, .error "boom", .ok 2] : List (Except String Nat))[j]?) ∧
    (SpecThreadPool.gather (SpecThreadPool.scatterAll { pending := [] }
        [.ok 1, .error "boom", .ok 2])).1 = .error "boom" ∧
    (SpecThreadPool.gather (SpecThreadPool.scatterAll { pending := [] }
        [.ok 1, .error "boom", .ok 2])).2 = { pending := [] } ∧
    (∀ laterJobs : List (Except String Nat),
      (SpecThreadPool.gather (SpecThreadPool.scatterAll
        (SpecThreadPool.gather (SpecThreadPool.scatterAll { pending := [] }
          [.ok 1, .error "boom", .ok 2])).2 laterJobs)).1 =
        SpecThreadPool.collect laterJobs) :=
  thread_pool_failure_isolated [.ok 1, .error "boom", .ok 2] 1 "boom" rfl
    (fun k hk => by
      interval_cases k
      exact ⟨1, rfl⟩)
